import Mathlib

/-!
Verification of the fcitx5-keyman keystroke bridge (`src/engine.cpp`,
`src/engine.h`, and the sibling revision of the same translation unit).

Modelling conventions:
* Single-unit (UTF-8) host strings are represented by the sequence of code
  points they decode to (`List Nat`): the external fcitx-utils routines
  `utf8::validate` / `MakeUTF8CharRange` / `UCS4ToUTF8` form the byte-level
  codec boundary, and the bridge only ever manipulates whole code points.
  Under this representation `utf8::validate` holds exactly when every code
  point is a Unicode scalar value.
* Dual-unit (UTF-16) buffers are `List Nat` of 16-bit units.
* Machine integers are modelled as `Nat` (all quantities involved are
  non-negative and far below any overflow boundary); the pointer/null
  distinction of the C API is modelled with `Option`.
-/

namespace FcitxKeyman

/-- `MAXCONTEXT_ITEMS` from `engine.cpp` line 48: the context window bound. -/
def MAXCONTEXT_ITEMS : Nat := 128

/-- A Unicode scalar value: below 0x110000 and not a surrogate.  The external
`utf8::validate` accepts a byte string iff it is well-formed UTF-8, i.e. iff it
decodes to a sequence of scalar values; this predicate is that per-code-point
condition. -/
def isScalar (c : Nat) : Bool :=
  decide (c < 0x110000 ∧ ¬(0xD800 ≤ c ∧ c ≤ 0xDFFF))

/-- The `utf8::validate(str)` guard at the top of `utf8ToUTF16`
(`engine.cpp` line 66), under the code-point representation of strings. -/
def utf8validate (s : List Nat) : Bool := s.all isScalar

/-- The conversion loop body of `utf8ToUTF16` (`engine.cpp` lines 70-79):
one unit for code points below 0x10000, a surrogate pair for code points in
[0x10000, 0x110000), and fail-fast (`return {}`) for anything at or above
0x110000. -/
def utf16units : List Nat → Option (List Nat)
  | [] => some []
  | c :: cs =>
    if c < 0x10000 then
      (utf16units cs).map (c :: ·)
    else if c < 0x110000 then
      (utf16units cs).map (fun us =>
        (0xD800 ||| (((c - 0x10000) >>> 10) &&& 0x3ff)) ::
          ((0xDC00 ||| (c &&& 0x3ff)) :: us))
    else none

/-- `utf8ToUTF16` (`engine.cpp` lines 65-82): empty result when validation or
conversion fails, otherwise the units followed by the terminating zero unit. -/
def utf8ToUTF16 (s : List Nat) : List Nat :=
  if utf8validate s then
    match utf16units s with
    | some us => us ++ [0]
    | none => []
  else []

/-- `utf16ToUTF8` (`engine.cpp` lines 84-111): decodes a dual-unit range back
to text (represented by its code points), failing on a high surrogate at the
end of the range, a high surrogate not followed by a low surrogate, or a lone
low surrogate.  `none` models the C++ empty-string failure return. -/
def utf16ToUTF8 : List Nat → Option (List Nat)
  | [] => some []
  | u :: rest =>
    if u < 0xD800 ∨ 0xDFFF < u then
      (utf16ToUTF8 rest).map (u :: ·)
    else if 0xD800 ≤ u ∧ u ≤ 0xDBFF then
      match rest with
      | [] => none
      | v :: rest2 =>
        if 0xDC00 ≤ v ∧ v ≤ 0xDFFF then
          (utf16ToUTF8 rest2).map
            ((((u &&& 0x3FF) <<< 10 ||| (v &&& 0x3FF)) + (1 <<< 16)) :: ·)
        else none
    else none

/-- The C++ `utf16ToUTF8` result as the caller observes it: an empty string on
failure. -/
def utf16ToUTF8str (l : List Nat) : List Nat := (utf16ToUTF8 l).getD []

/-- Unfolding lemma for `utf16ToUTF8` at a non-surrogate leading unit. -/
theorem utf16ToUTF8_cons_normal (u : Nat) (rest : List Nat)
    (h : u < 0xD800 ∨ 0xDFFF < u) :
    utf16ToUTF8 (u :: rest) = (utf16ToUTF8 rest).map (u :: ·) := by
  cases rest with
  | nil => simp only [utf16ToUTF8, if_pos h]
  | cons v rest2 => simp only [utf16ToUTF8, if_pos h]

/-- Unfolding lemma for `utf16ToUTF8` at a leading low surrogate. -/
theorem utf16ToUTF8_cons_low (u : Nat) (rest : List Nat)
    (h : 0xDC00 ≤ u ∧ u ≤ 0xDFFF) :
    utf16ToUTF8 (u :: rest) = none := by
  cases rest with
  | nil =>
    simp only [utf16ToUTF8, if_neg (by omega : ¬(u < 0xD800 ∨ 0xDFFF < u)),
      if_neg (by omega : ¬(0xD800 ≤ u ∧ u ≤ 0xDBFF))]
  | cons v rest2 =>
    simp only [utf16ToUTF8, if_neg (by omega : ¬(u < 0xD800 ∨ 0xDFFF < u)),
      if_neg (by omega : ¬(0xD800 ≤ u ∧ u ≤ 0xDBFF))]

/-- Unfolding lemma for `utf16ToUTF8` at a high surrogate followed by a low
surrogate. -/
theorem utf16ToUTF8_cons_pair (u v : Nat) (rest2 : List Nat)
    (hu : 0xD800 ≤ u ∧ u ≤ 0xDBFF) (hv : 0xDC00 ≤ v ∧ v ≤ 0xDFFF) :
    utf16ToUTF8 (u :: v :: rest2) =
      (utf16ToUTF8 rest2).map
        ((((u &&& 0x3FF) <<< 10 ||| (v &&& 0x3FF)) + (1 <<< 16)) :: ·) := by
  simp only [utf16ToUTF8, if_neg (by omega : ¬(u < 0xD800 ∨ 0xDFFF < u)),
    if_pos hu, if_pos hv]

/-- Unfolding lemma for `utf16ToUTF8` at a high surrogate followed by a unit
that is not a low surrogate. -/
theorem utf16ToUTF8_cons_badpair (u v : Nat) (rest2 : List Nat)
    (hu : 0xD800 ≤ u ∧ u ≤ 0xDBFF) (hv : ¬(0xDC00 ≤ v ∧ v ≤ 0xDFFF)) :
    utf16ToUTF8 (u :: v :: rest2) = none := by
  simp only [utf16ToUTF8, if_neg (by omega : ¬(u < 0xD800 ∨ 0xDFFF < u)),
    if_pos hu, if_neg hv]

/-- Unfolding lemma for `utf16ToUTF8` at a trailing high surrogate. -/
theorem utf16ToUTF8_high_end (u : Nat) (hu : 0xD800 ≤ u ∧ u ≤ 0xDBFF) :
    utf16ToUTF8 [u] = none := by
  simp only [utf16ToUTF8, if_neg (by omega : ¬(u < 0xD800 ∨ 0xDFFF < u)),
    if_pos hu]

section BitLemmas

theorem and_0x3FF (x : Nat) : x &&& 0x3FF = x % 1024 := by
  have h : (0x3FF : Nat) = 2 ^ 10 - 1 := by norm_num
  have h2 : (1024 : Nat) = 2 ^ 10 := by norm_num
  rw [h, h2, Nat.and_pow_two_sub_one_eq_mod]

theorem shiftLeft10_lor (a r : Nat) (h : r < 1024) : (a <<< 10) ||| r = a * 1024 + r := by
  have h1024 : (1024 : Nat) = 2 ^ 10 := by norm_num
  apply Nat.eq_of_testBit_eq
  intro i
  rw [Nat.testBit_lor, Nat.testBit_shiftLeft]
  rw [h1024] at h ⊢
  rw [Nat.mul_comm a (2 ^ 10), Nat.testBit_mul_pow_two_add a h i]
  by_cases hi : i < 10
  · have hn : ¬(10 ≤ i) := by omega
    simp [hi, hn]
  · have h10 : 10 ≤ i := by omega
    have hr : r.testBit i = false := by
      apply Nat.testBit_lt_two_pow
      calc r < 2 ^ 10 := h
        _ ≤ 2 ^ i := Nat.pow_le_pow_right (by norm_num) h10
    simp [hi, h10, hr]

theorem mul1024_lor (a r : Nat) (h : r < 1024) : (a * 1024) ||| r = a * 1024 + r := by
  have hs : a <<< 10 = a * 1024 := by
    rw [Nat.shiftLeft_eq]
  rw [← hs, shiftLeft10_lor a r h, hs]

theorem lor_0xD800 (q : Nat) (h : q < 1024) : 0xD800 ||| q = 0xD800 + q := by
  have h54 : (0xD800 : Nat) = 54 * 1024 := by norm_num
  rw [h54, mul1024_lor 54 q h]

theorem lor_0xDC00 (r : Nat) (h : r < 1024) : 0xDC00 ||| r = 0xDC00 + r := by
  have h55 : (0xDC00 : Nat) = 55 * 1024 := by norm_num
  rw [h55, mul1024_lor 55 r h]

/-- The surrogate pair written by `utf8ToUTF16` is in range and decodes, via
the pairing arithmetic of `utf16ToUTF8`, back to the original code point. -/
theorem surrogate_roundtrip (c : Nat) (h1 : 0x10000 ≤ c) (h2 : c < 0x110000) :
    0xD800 ≤ 0xD800 ||| (((c - 0x10000) >>> 10) &&& 0x3ff) ∧
    (0xD800 ||| (((c - 0x10000) >>> 10) &&& 0x3ff)) ≤ 0xDBFF ∧
    0xDC00 ≤ 0xDC00 ||| (c &&& 0x3ff) ∧
    (0xDC00 ||| (c &&& 0x3ff)) ≤ 0xDFFF ∧
    (((0xD800 ||| (((c - 0x10000) >>> 10) &&& 0x3ff)) &&& 0x3FF) <<< 10 |||
        ((0xDC00 ||| (c &&& 0x3ff)) &&& 0x3FF)) + (1 <<< 16) = c := by
  have hshift : (c - 0x10000) >>> 10 = (c - 0x10000) / 1024 := by
    rw [Nat.shiftRight_eq_div_pow]
  have hqsmall : (c - 0x10000) / 1024 < 1024 := by omega
  have hq : ((c - 0x10000) >>> 10) &&& 0x3ff = (c - 0x10000) / 1024 := by
    rw [hshift, and_0x3FF, Nat.mod_eq_of_lt hqsmall]
  have hr : c &&& 0x3ff = c % 1024 := and_0x3FF c
  have hrsmall : c % 1024 < 1024 := by omega
  rw [hq, hr, lor_0xD800 _ hqsmall, lor_0xDC00 _ hrsmall]
  refine ⟨by omega, by omega, by omega, by omega, ?_⟩
  rw [and_0x3FF, and_0x3FF]
  have hq2 : (0xD800 + (c - 0x10000) / 1024) % 1024 = (c - 0x10000) / 1024 := by omega
  have hr2 : (0xDC00 + c % 1024) % 1024 = c % 1024 := by omega
  rw [hq2, hr2, shiftLeft10_lor _ _ (by omega)]
  have h16 : (1 : Nat) <<< 16 = 65536 := by rw [Nat.shiftLeft_eq]
  rw [h16]
  omega

end BitLemmas

/-- Encoding a sequence of scalar values succeeds, and decoding the resulting
units recovers the sequence. -/
theorem decode_encode (s : List Nat) (h : ∀ c ∈ s, isScalar c = true) :
    ∃ us, utf16units s = some us ∧ utf16ToUTF8 us = some s := by
  induction s with
  | nil => exact ⟨[], rfl, rfl⟩
  | cons c cs ih =>
    have hc : isScalar c = true := h c (List.mem_cons_self c cs)
    have hcs : ∀ x ∈ cs, isScalar x = true := fun x hx => h x (List.mem_cons_of_mem c hx)
    obtain ⟨us, hu, hd⟩ := ih hcs
    have hc' : c < 0x110000 ∧ (c < 0xD800 ∨ 0xDFFF < c) := by
      simpa [isScalar] using hc
    by_cases hsmall : c < 0x10000
    · refine ⟨c :: us, ?_, ?_⟩
      · simp only [utf16units, if_pos hsmall, hu, Option.map_some']
      · have hns : c < 0xD800 ∨ 0xDFFF < c := hc'.2
        rw [utf16ToUTF8_cons_normal c us hns, hd, Option.map_some']
    · have hbig : 0x10000 ≤ c := by omega
      obtain ⟨ha, hb, hc2, hd2, he⟩ := surrogate_roundtrip c hbig hc'.1
      refine ⟨(0xD800 ||| (((c - 0x10000) >>> 10) &&& 0x3ff)) ::
        ((0xDC00 ||| (c &&& 0x3ff)) :: us), ?_, ?_⟩
      · simp only [utf16units, if_neg hsmall, if_pos hc'.1, hu, Option.map_some']
      · simp only [utf16ToUTF8]
        rw [if_neg (by omega), if_pos (by omega), if_pos (by omega), hd,
          Option.map_some', he]

/-- **C5.** For every valid single-unit string (all code points scalar values,
hence below 0x110000), encoding with `utf8ToUTF16` and decoding the units
excluding the terminating zero unit with `utf16ToUTF8` yields the string
back exactly. -/
theorem C5_transcoder_roundtrip (s : List Nat) (h : utf8validate s = true) :
    utf16ToUTF8 ((utf8ToUTF16 s).dropLast) = some s := by
  have h' : ∀ c ∈ s, isScalar c = true := by
    simpa [utf8validate, List.all_eq_true] using h
  obtain ⟨us, hu, hd⟩ := decode_encode s h'
  unfold utf8ToUTF16
  rw [if_pos h, hu]
  simpa [List.dropLast_concat] using hd

/-- Witness for C5 at a concrete input containing both a one-unit code point
and a surrogate-pair code point. -/
theorem C5_transcoder_roundtrip_witness :
    utf16ToUTF8 ((utf8ToUTF16 [104, 66560]).dropLast) = some [104, 66560] :=
  C5_transcoder_roundtrip [104, 66560] (by decide)

/-- Decoding fails whenever a high surrogate sits at the end of the range,
wherever the preceding units leave the decoder. -/
theorem decode_fails_high_at_end_aux :
    ∀ (n : Nat) (pre : List Nat) (u : Nat), pre.length ≤ n →
      0xD800 ≤ u → u ≤ 0xDBFF → utf16ToUTF8 (pre ++ [u]) = none := by
  intro n
  induction n with
  | zero =>
    intro pre u hlen h1 h2
    have hnil : pre = [] := List.eq_nil_of_length_eq_zero (by omega)
    subst hnil
    exact utf16ToUTF8_high_end u ⟨h1, h2⟩
  | succ n ih =>
    intro pre u hlen h1 h2
    match pre with
    | [] => exact utf16ToUTF8_high_end u ⟨h1, h2⟩
    | a :: pre' =>
      have hlen' : pre'.length ≤ n := by
        simp only [List.length_cons] at hlen; omega
      by_cases ha : a < 0xD800 ∨ 0xDFFF < a
      · rw [List.cons_append, utf16ToUTF8_cons_normal a _ ha,
          ih pre' u hlen' h1 h2, Option.map_none']
      · by_cases ha2 : 0xD800 ≤ a ∧ a ≤ 0xDBFF
        · match pre' with
          | [] =>
            rw [List.cons_append, List.nil_append]
            exact utf16ToUTF8_cons_badpair a u [] ha2 (by omega)
          | b :: pre'' =>
            have hlen'' : pre''.length ≤ n := by
              simp only [List.length_cons] at hlen; omega
            by_cases hb : 0xDC00 ≤ b ∧ b ≤ 0xDFFF
            · rw [List.cons_append, List.cons_append,
                utf16ToUTF8_cons_pair a b _ ha2 hb,
                ih pre'' u hlen'' h1 h2, Option.map_none']
            · rw [List.cons_append, List.cons_append]
              exact utf16ToUTF8_cons_badpair a b _ ha2 hb
        · rw [List.cons_append]
          exact utf16ToUTF8_cons_low a _ (by omega)

/-- Decoding fails whenever a high surrogate is immediately followed by a
unit that is not a low surrogate. -/
theorem decode_fails_badpair_aux :
    ∀ (n : Nat) (pre : List Nat) (u x : Nat) (post : List Nat), pre.length ≤ n →
      0xD800 ≤ u → u ≤ 0xDBFF → ¬(0xDC00 ≤ x ∧ x ≤ 0xDFFF) →
      utf16ToUTF8 (pre ++ u :: x :: post) = none := by
  intro n
  induction n with
  | zero =>
    intro pre u x post hlen h1 h2 hx
    have hnil : pre = [] := List.eq_nil_of_length_eq_zero (by omega)
    subst hnil
    exact utf16ToUTF8_cons_badpair u x post ⟨h1, h2⟩ hx
  | succ n ih =>
    intro pre u x post hlen h1 h2 hx
    match pre with
    | [] => exact utf16ToUTF8_cons_badpair u x post ⟨h1, h2⟩ hx
    | a :: pre' =>
      have hlen' : pre'.length ≤ n := by
        simp only [List.length_cons] at hlen; omega
      by_cases ha : a < 0xD800 ∨ 0xDFFF < a
      · rw [List.cons_append, utf16ToUTF8_cons_normal a _ ha,
          ih pre' u x post hlen' h1 h2 hx, Option.map_none']
      · by_cases ha2 : 0xD800 ≤ a ∧ a ≤ 0xDBFF
        · match pre' with
          | [] =>
            rw [List.cons_append, List.nil_append]
            exact utf16ToUTF8_cons_badpair a u _ ha2 (by omega)
          | b :: pre'' =>
            have hlen'' : pre''.length ≤ n := by
              simp only [List.length_cons] at hlen; omega
            by_cases hb : 0xDC00 ≤ b ∧ b ≤ 0xDFFF
            · rw [List.cons_append, List.cons_append,
                utf16ToUTF8_cons_pair a b _ ha2 hb,
                ih pre'' u x post hlen'' h1 h2 hx, Option.map_none']
            · rw [List.cons_append, List.cons_append]
              exact utf16ToUTF8_cons_badpair a b _ ha2 hb
        · rw [List.cons_append]
          exact utf16ToUTF8_cons_low a _ (by omega)

/-- Decoding fails whenever a low surrogate is not immediately preceded by a
high surrogate (a lone low surrogate). -/
theorem decode_fails_lonelow_aux :
    ∀ (n : Nat) (pre : List Nat) (u : Nat) (post : List Nat), pre.length ≤ n →
      0xDC00 ≤ u → u ≤ 0xDFFF →
      (∀ l, pre.getLast? = some l → ¬(0xD800 ≤ l ∧ l ≤ 0xDBFF)) →
      utf16ToUTF8 (pre ++ u :: post) = none := by
  intro n
  induction n with
  | zero =>
    intro pre u post hlen h1 h2 _hpre
    have hnil : pre = [] := List.eq_nil_of_length_eq_zero (by omega)
    subst hnil
    exact utf16ToUTF8_cons_low u post ⟨h1, h2⟩
  | succ n ih =>
    intro pre u post hlen h1 h2 hpre
    match pre with
    | [] => exact utf16ToUTF8_cons_low u post ⟨h1, h2⟩
    | a :: pre' =>
      have hlen' : pre'.length ≤ n := by
        simp only [List.length_cons] at hlen; omega
      by_cases ha : a < 0xD800 ∨ 0xDFFF < a
      · have hpre' : ∀ l, pre'.getLast? = some l → ¬(0xD800 ≤ l ∧ l ≤ 0xDBFF) := by
          intro l hl
          apply hpre l
          match pre' with
          | [] => simp at hl
          | c :: pre'' => rw [List.getLast?_cons_cons]; exact hl
        rw [List.cons_append, utf16ToUTF8_cons_normal a _ ha,
          ih pre' u post hlen' h1 h2 hpre', Option.map_none']
      · by_cases ha2 : 0xD800 ≤ a ∧ a ≤ 0xDBFF
        · match pre' with
          | [] =>
            exact absurd ha2 (hpre a (by simp))
          | b :: pre'' =>
            have hlen'' : pre''.length ≤ n := by
              simp only [List.length_cons] at hlen; omega
            by_cases hb : 0xDC00 ≤ b ∧ b ≤ 0xDFFF
            · have hpre'' : ∀ l, pre''.getLast? = some l →
                  ¬(0xD800 ≤ l ∧ l ≤ 0xDBFF) := by
                intro l hl
                apply hpre l
                match pre'' with
                | [] => simp at hl
                | c :: pre3 =>
                  rw [List.getLast?_cons_cons, List.getLast?_cons_cons]
                  exact hl
              rw [List.cons_append, List.cons_append,
                utf16ToUTF8_cons_pair a b _ ha2 hb,
                ih pre'' u post hlen'' h1 h2 hpre'', Option.map_none']
            · rw [List.cons_append, List.cons_append]
              exact utf16ToUTF8_cons_badpair a b _ ha2 hb
        · rw [List.cons_append]
          exact utf16ToUTF8_cons_low a _ (by omega)

/-- **C6.** Both transcoding directions fail fast with an empty result and
never surface partial output: a malformed forward input, or one containing a
code point at or above 0x110000, yields the empty result; a reverse input
containing a high surrogate not immediately followed by a low surrogate
(including a high surrogate at the end of the range), or containing a lone
low surrogate, yields the empty (failure) result. -/
theorem C6_transcoder_failfast :
    (∀ s, utf8validate s = false → utf8ToUTF16 s = []) ∧
    (∀ s c, c ∈ s → 0x110000 ≤ c → utf8ToUTF16 s = []) ∧
    (∀ pre u, 0xD800 ≤ u → u ≤ 0xDBFF → utf16ToUTF8 (pre ++ [u]) = none) ∧
    (∀ pre u x post, 0xD800 ≤ u → u ≤ 0xDBFF → ¬(0xDC00 ≤ x ∧ x ≤ 0xDFFF) →
      utf16ToUTF8 (pre ++ u :: x :: post) = none) ∧
    (∀ pre u post, 0xDC00 ≤ u → u ≤ 0xDFFF →
      (∀ l, pre.getLast? = some l → ¬(0xD800 ≤ l ∧ l ≤ 0xDBFF)) →
      utf16ToUTF8 (pre ++ u :: post) = none) := by
  refine ⟨?_, ?_, ?_, ?_, ?_⟩
  · intro s h
    unfold utf8ToUTF16
    rw [if_neg (by simp [h])]
  · intro s c hmem hc
    have hval : utf8validate s = false := by
      rcases hv : utf8validate s with _ | _
      · rfl
      · exfalso
        have := (List.all_eq_true.mp hv) c hmem
        have hc' : c < 0x110000 := by
          have h2 := of_decide_eq_true this
          exact h2.1
        omega
    unfold utf8ToUTF16
    rw [if_neg (by simp [hval])]
  · intro pre u h1 h2
    exact decode_fails_high_at_end_aux pre.length pre u le_rfl h1 h2
  · intro pre u x post h1 h2 hx
    exact decode_fails_badpair_aux pre.length pre u x post le_rfl h1 h2 hx
  · intro pre u post h1 h2 hpre
    exact decode_fails_lonelow_aux pre.length pre u post le_rfl h1 h2 hpre

/-- Witness for C6: each failure mode exercised at a concrete input (a
malformed string containing a surrogate code point, a string containing a
code point above 0x10FFFF, a trailing high surrogate, a high surrogate
followed by an ordinary unit, and a lone low surrogate). -/
theorem C6_transcoder_failfast_witness :
    utf8ToUTF16 [0xD800] = [] ∧ utf8ToUTF16 [65, 0x110000] = [] ∧
    utf16ToUTF8 [65, 0xD801] = none ∧ utf16ToUTF8 [0xD801, 66] = none ∧
    utf16ToUTF8 [65, 0xDC01, 66] = none := by
  refine ⟨?_, ?_, ?_, ?_, ?_⟩
  · exact C6_transcoder_failfast.1 [0xD800] (by decide)
  · exact C6_transcoder_failfast.2.1 [65, 0x110000] 0x110000 (by decide) (by decide)
  · exact C6_transcoder_failfast.2.2.1 [65] 0xD801 (by decide) (by decide)
  · exact C6_transcoder_failfast.2.2.2.1 [] 0xD801 66 [] (by decide) (by decide)
      (by decide)
  · exact C6_transcoder_failfast.2.2.2.2 [65] 0xDC01 [66] (by decide) (by decide)
      (by intro l hl hbad; simp at hl; omega)


/-- The pre-cursor slice computed by `KeymanState::updateContext`
(`engine.cpp` lines 189-199): `context_pos = min(anchor, cursor)`,
`context_start = context_pos > MAXCONTEXT_ITEMS ? context_pos -
MAXCONTEXT_ITEMS : 0`, then the character slice
`[context_start, context_pos)` taken with `utf8::nextNChar` iterators. -/
def contextWindow (text : List Nat) (anchor cursor : Nat) : List Nat :=
  let context_pos := min anchor cursor
  let context_start :=
    if context_pos > MAXCONTEXT_ITEMS then context_pos - MAXCONTEXT_ITEMS else 0
  (text.drop context_start).take (context_pos - context_start)

/-- The cleared engine context: the buffer holding only the terminating zero
unit, as pushed by the `else` branch of `KeymanState::resetContext`
(`src/unnamed/part_001` lines 186-188). -/
def emptyCtx : List Nat := [0]

/-- `KeymanState::updateContext` (`engine.cpp` lines 186-206), as a function
from the host state and the engine's cached context to the new cached
context: when the surrounding-text capability is present and the surrounding
text is valid, the windowed slice is transcoded and pushed
(`km_core_state_context_set_if_needed`); otherwise nothing happens and the
cached context is left as it was. -/
def updateContext (hasSurrounding isValid : Bool) (text : List Nat)
    (anchor cursor : Nat) (old : List Nat) : List Nat :=
  if hasSurrounding && isValid then utf8ToUTF16 (contextWindow text anchor cursor)
  else old

/-- `KeymanState::resetContext` (`src/unnamed/part_001` lines 166-190): same
push on the valid-surrounding path, but the `else` branch pushes the empty
(zero-terminated) context, explicitly clearing the cache. -/
def resetContext (hasSurrounding isValid : Bool) (text : List Nat)
    (anchor cursor : Nat) (_old : List Nat) : List Nat :=
  if hasSurrounding && isValid then utf8ToUTF16 (contextWindow text anchor cursor)
  else emptyCtx

/-- **C1.** With surrounding text available and valid, the context pushed
into the session is the transcoding of exactly `text[max(0, P-128) : P]`
where `P = min(anchor, cursor)` (in `Nat`, `P - 128` is truncated
subtraction, hence equals `max (0, P - 128)`); in particular for `P ≤ 128`
the window starts at offset 0, i.e. the slice is `text.take P`. -/
theorem C1_context_window (text : List Nat) (anchor cursor : Nat)
    (old : List Nat) :
    updateContext true true text anchor cursor old =
      utf8ToUTF16 ((text.drop (min anchor cursor - MAXCONTEXT_ITEMS)).take
        (min anchor cursor - (min anchor cursor - MAXCONTEXT_ITEMS))) ∧
    (min anchor cursor ≤ 128 →
      updateContext true true text anchor cursor old =
        utf8ToUTF16 (text.take (min anchor cursor))) := by
  constructor
  · unfold updateContext contextWindow MAXCONTEXT_ITEMS
    simp only [Bool.and_self, if_true]
    by_cases h : min anchor cursor > 128
    · rw [if_pos h]
    · rw [if_neg h]
      have h0 : min anchor cursor - 128 = 0 := by omega
      rw [h0]
  · intro h128
    unfold updateContext contextWindow MAXCONTEXT_ITEMS
    simp only [Bool.and_self, if_true]
    rw [if_neg (by omega)]
    have h0 : min anchor cursor - 0 = min anchor cursor := by omega
    rw [h0, List.drop_zero]

/-- Witness for C1: a five-character text with the selection collapsed at
character position 2 pushes exactly the first two characters. -/
theorem C1_context_window_witness :
    updateContext true true [65, 66, 67, 68, 69] 2 2 [99, 0] =
      utf8ToUTF16 [65, 66] :=
  (C1_context_window [65, 66, 67, 68, 69] 2 2 [99, 0]).2 (by decide)

/-- Counterexample for C2 as stated: in `engine.cpp`'s `updateContext`, a
refresh without the surrounding-text capability performs no engine call at
all — the previously cached context `[65, 0]` is left in place, and it is
not the cleared context. -/
theorem C2_counterexample :
    updateContext false true [66] 1 1 [65, 0] = [65, 0] ∧ [65, 0] ≠ emptyCtx := by
  constructor
  · rfl
  · decide

/-- **C2 (amended).** When the refresh runs and the host either lacks the
surrounding-text capability or reports invalid surrounding text, the
`part_001` revision's `resetContext` pushes the empty context (an explicit
clear), whereas `engine.cpp`'s `updateContext` leaves the previously cached
context unchanged and issues no clear. -/
theorem C2_refresh_no_surrounding (hasSurrounding isValid : Bool)
    (text : List Nat) (anchor cursor : Nat) (old : List Nat)
    (h : (hasSurrounding && isValid) = false) :
    updateContext hasSurrounding isValid text anchor cursor old = old ∧
    resetContext hasSurrounding isValid text anchor cursor old = emptyCtx := by
  constructor
  · unfold updateContext
    rw [if_neg (by simp [h])]
  · unfold resetContext
    rw [if_neg (by simp [h])]

/-- Witness for the amended C2 at a concrete host state with the capability
absent. -/
theorem C2_refresh_no_surrounding_witness :
    updateContext false true [66] 1 1 [65, 0] = [65, 0] ∧
    resetContext false true [66] 1 1 [65, 0] = emptyCtx :=
  C2_refresh_no_surrounding false true [66] 1 1 [65, 0] (by decide)

/-- Observable effects of the deletion step of `KeymanEngine::keyEvent`
(`engine.cpp` lines 496-511): the engine-object `emit_keystroke` flag after
the step, the `deleteSurroundingText(offset, size)` calls issued, and the
number of synthetic Backspace key events forwarded. -/
structure DeleteOutcome where
  emitFlag : Bool
  deleteCalls : List (Int × Nat)
  forwardedBackspaces : Nat
deriving DecidableEq

/-- The deletion step of `KeymanEngine::keyEvent` (`engine.cpp` lines
496-511).  `emit0` is the engine's `emit_keystroke` member on entry
(`engine.h` line 118); `numOfDelete` is `actions->code_points_to_delete`;
`isBackspaceKey` is `keyEvent.key().check(FcitxKey_BackSpace)`;
`hasSurrounding` is the `CapabilityFlag::SurroundingText` test. -/
def deleteStep (emit0 : Bool) (numOfDelete : Nat)
    (isBackspaceKey hasSurrounding : Bool) : DeleteOutcome :=
  if numOfDelete > 0 then
    if numOfDelete = 1 ∧ isBackspaceKey then
      { emitFlag := true, deleteCalls := [], forwardedBackspaces := 0 }
    else if hasSurrounding then
      { emitFlag := emit0,
        deleteCalls := [(-(numOfDelete : Int), numOfDelete)],
        forwardedBackspaces := 0 }
    else
      { emitFlag := emit0, deleteCalls := [],
        forwardedBackspaces := numOfDelete }
  else
    { emitFlag := emit0, deleteCalls := [], forwardedBackspaces := 0 }

/-- The accept/forward decision of `KeymanEngine::keyEvent` (`engine.cpp`
lines 527-532): first component is whether `keyEvent.filterAndAccept()` is
called (event consumed), second is the `emit_keystroke` member afterwards.
`actionsEmit` is `actions->emit_keystroke`; `pending` is the member's value
when the decision runs. -/
def acceptStep (actionsEmit pending : Bool) : Bool × Bool :=
  if actionsEmit || pending then (false, false) else (true, pending)

/-- Whether a key event reaching the action-processing code is
consumed/filtered, starting from a clear `emit_keystroke` member. -/
def eventFiltered (actionsEmit : Bool) (numOfDelete : Nat)
    (isBackspaceKey hasSurrounding : Bool) : Bool :=
  (acceptStep actionsEmit
    (deleteStep false numOfDelete isBackspaceKey hasSurrounding).emitFlag).1

/-- **C3.** For a processed key event requesting deletion of `N > 0` units:
`N = 1` triggered by Backspace sets the raw-keystroke-emit flag and performs
no programmatic deletion; otherwise with the surrounding-text capability
exactly one delete-range call `(-N, N)` is issued; otherwise exactly `N`
synthetic Backspace events are forwarded. -/
theorem C3_delete_routing (emit0 : Bool) (n : Nat)
    (isBackspaceKey hasSurrounding : Bool) (hpos : 0 < n) :
    (n = 1 ∧ isBackspaceKey = true →
      deleteStep emit0 n isBackspaceKey hasSurrounding =
        { emitFlag := true, deleteCalls := [], forwardedBackspaces := 0 }) ∧
    (¬(n = 1 ∧ isBackspaceKey = true) → hasSurrounding = true →
      deleteStep emit0 n isBackspaceKey hasSurrounding =
        { emitFlag := emit0, deleteCalls := [(-(n : Int), n)],
          forwardedBackspaces := 0 }) ∧
    (¬(n = 1 ∧ isBackspaceKey = true) → hasSurrounding = false →
      deleteStep emit0 n isBackspaceKey hasSurrounding =
        { emitFlag := emit0, deleteCalls := [], forwardedBackspaces := n }) := by
  refine ⟨?_, ?_, ?_⟩
  · rintro ⟨h1, hb⟩
    subst h1
    unfold deleteStep
    rw [if_pos hpos, if_pos ⟨rfl, hb⟩]
  · intro hnot hst
    unfold deleteStep
    rw [if_pos hpos, if_neg (by simpa using hnot), if_pos hst]
  · intro hnot hst
    unfold deleteStep
    rw [if_pos hpos, if_neg (by simpa using hnot), if_neg (by simp [hst])]

/-- Witness for C3: the three routes at `N = 1` (Backspace), `N = 3` (with
surrounding text) and `N = 2` (without surrounding text). -/
theorem C3_delete_routing_witness :
    deleteStep false 1 true true =
      { emitFlag := true, deleteCalls := [], forwardedBackspaces := 0 } ∧
    deleteStep false 3 false true =
      { emitFlag := false, deleteCalls := [(-3, 3)], forwardedBackspaces := 0 } ∧
    deleteStep false 2 false false =
      { emitFlag := false, deleteCalls := [], forwardedBackspaces := 2 } := by
  refine ⟨?_, ?_, ?_⟩
  · exact (C3_delete_routing false 1 true true (by decide)).1 ⟨rfl, rfl⟩
  · exact (C3_delete_routing false 3 false true (by decide)).2.1 (by decide) rfl
  · exact (C3_delete_routing false 2 false false (by decide)).2.2 (by decide) rfl

/-- **C4.** A key event reaching the action-processing code is
consumed/filtered if and only if neither `actions->emit_keystroke` is set
nor the pending raw-keystroke flag was set during this event's deletion
step; when either is set, the event passes to the host unmodified. -/
theorem C4_accept_decision (actionsEmit : Bool) (numOfDelete : Nat)
    (isBackspaceKey hasSurrounding : Bool) :
    eventFiltered actionsEmit numOfDelete isBackspaceKey hasSurrounding = true ↔
      (actionsEmit = false ∧
        (deleteStep false numOfDelete isBackspaceKey hasSurrounding).emitFlag
          = false) := by
  unfold eventFiltered acceptStep
  rcases ha : actionsEmit with _ | _ <;>
    rcases hd : (deleteStep false numOfDelete isBackspaceKey
      hasSurrounding).emitFlag with _ | _ <;> simp

/-- One key-event invocation of `KeymanEngine::keyEvent`, restricted to its
effect on the engine-object `emit_keystroke` member.  `earlyReturn` covers
the paths that leave before the action processing (no session, key code out
of range, unmapped virtual key). -/
structure KeyEventInput where
  earlyReturn : Bool
  actionsEmit : Bool
  numOfDelete : Nat
  isBackspaceKey : Bool
  hasSurrounding : Bool

/-- The `emit_keystroke` member after one `keyEvent` invocation that started
with value `e0`. -/
def keyEventEmitFlag (e0 : Bool) (ev : KeyEventInput) : Bool :=
  if ev.earlyReturn then e0
  else
    (acceptStep ev.actionsEmit
      (deleteStep e0 ev.numOfDelete ev.isBackspaceKey ev.hasSurrounding).emitFlag).2

/-- The `emit_keystroke` member after a sequence of key-event invocations
starting from value `e0`. -/
def runKeyEvents (e0 : Bool) (evs : List KeyEventInput) : Bool :=
  evs.foldl keyEventEmitFlag e0

/-- **C10.** The pending raw-keystroke flag is false on entry to and on exit
from every key-event invocation: an invocation entered with the flag clear
exits with it clear (the accept/forward decision that follows the deletion
step always reads and resets it), so from its initial `false` value the flag
is false after every prefix of any event sequence and never carries over. -/
theorem C10_emit_flag_invariant (evs : List KeyEventInput) :
    (∀ ev, keyEventEmitFlag false ev = false) ∧
    runKeyEvents false evs = false := by
  have hstep : ∀ ev, keyEventEmitFlag false ev = false := by
    intro ev
    unfold keyEventEmitFlag
    rcases he : ev.earlyReturn with _ | _
    · rcases hd : (deleteStep false ev.numOfDelete ev.isBackspaceKey
        ev.hasSurrounding).emitFlag with _ | _ <;>
        rcases ha : ev.actionsEmit with _ | _ <;> simp [acceptStep]
    · simp
  refine ⟨hstep, ?_⟩
  induction evs with
  | nil => rfl
  | cons ev evs ih =>
    unfold runKeyEvents at ih ⊢
    rw [List.foldl_cons, hstep ev]
    exact ih

/-- Engine modifier bits, from the external `keyman_core_api` header
(left-Ctrl, right-Ctrl, left-Alt, right-Alt, Shift). -/
def KM_CORE_MODIFIER_LCTRL : Nat := 0x1

def KM_CORE_MODIFIER_RCTRL : Nat := 0x2

def KM_CORE_MODIFIER_LALT : Nat := 0x4

def KM_CORE_MODIFIER_RALT : Nat := 0x8

def KM_CORE_MODIFIER_SHIFT : Nat := 0x10

/-- Construction of `km_mod_state` in `KeymanEngine::keyEvent`
(`engine.cpp` lines 445-477): Shift maps directly; Mod5 (AltGr) maps to
right-Alt; the generic Mod1 (Alt) flag contributes right-Alt and/or
left-Alt according to the per-session latches; the generic Ctrl flag
likewise via the Ctrl latches. -/
def kmModState (shift mod5 mod1 ctrl : Bool)
    (ralt_pressed lalt_pressed rctrl_pressed lctrl_pressed : Bool) : Nat :=
  let s0 : Nat := 0
  let s1 := if shift then s0 ||| KM_CORE_MODIFIER_SHIFT else s0
  let s2 := if mod5 then s1 ||| KM_CORE_MODIFIER_RALT else s1
  let s3 := if mod1 && ralt_pressed then s2 ||| KM_CORE_MODIFIER_RALT else s2
  let s4 := if mod1 && lalt_pressed then s3 ||| KM_CORE_MODIFIER_LALT else s3
  let s5 := if ctrl && rctrl_pressed then s4 ||| KM_CORE_MODIFIER_RCTRL else s4
  let s6 := if ctrl && lctrl_pressed then s5 ||| KM_CORE_MODIFIER_LCTRL else s5
  s6

/-- **C7.** For a key event whose host flags include the generic Alt (Mod1)
flag: with the right-Alt latch held and the left-Alt latch clear, the mask
contains exactly the right-Alt bit among the Alt bits; with both latches
clear and no Mod5/AltGr flag, the mask contains no Alt bit at all. -/
theorem C7_modifier_resolution (shift mod5 mod1 ctrl : Bool)
    (ralt_pressed lalt_pressed rctrl_pressed lctrl_pressed : Bool)
    (hmod1 : mod1 = true) :
    (ralt_pressed = true → lalt_pressed = false →
      kmModState shift mod5 mod1 ctrl ralt_pressed lalt_pressed
          rctrl_pressed lctrl_pressed &&&
        (KM_CORE_MODIFIER_LALT ||| KM_CORE_MODIFIER_RALT) =
        KM_CORE_MODIFIER_RALT) ∧
    (ralt_pressed = false → lalt_pressed = false → mod5 = false →
      kmModState shift mod5 mod1 ctrl ralt_pressed lalt_pressed
          rctrl_pressed lctrl_pressed &&&
        (KM_CORE_MODIFIER_LALT ||| KM_CORE_MODIFIER_RALT) = 0) := by
  subst hmod1
  revert shift mod5 ctrl ralt_pressed lalt_pressed rctrl_pressed lctrl_pressed
  decide

/-- Witness for C7: a concrete event with generic Alt set, right-Alt latch
held, left-Alt latch clear, and another with both latches clear. -/
theorem C7_modifier_resolution_witness :
    kmModState true false true false true false false false &&&
      (KM_CORE_MODIFIER_LALT ||| KM_CORE_MODIFIER_RALT) =
      KM_CORE_MODIFIER_RALT ∧
    kmModState true false true false false false false false &&&
      (KM_CORE_MODIFIER_LALT ||| KM_CORE_MODIFIER_RALT) = 0 :=
  ⟨(C7_modifier_resolution true false true false true false false false
      rfl).1 rfl rfl,
    (C7_modifier_resolution true false true false false false false false
      rfl).2 rfl rfl rfl⟩

/-- One entry of the `actions->persist_options` array
(`km_core_option_item`): a scope tag and possibly-null pointers to
zero-terminated dual-unit key and value buffers.  The array itself is
terminated by an entry whose scope is 0. -/
structure OptItem where
  scope : Nat
  key : Option (List Nat)
  value : Option (List Nat)

/-- The `while (*end) ++end` scan of `KeymanKeyboardData::setOption`
(`engine.cpp` lines 368-375): the units before the terminating zero. -/
def takeUntilNul (l : List Nat) : List Nat := l.takeWhile (fun u => u != 0)

/-- `KeymanKeyboardData::setOption` (`engine.cpp` lines 366-385), observed
as the list of (key, value) writes it performs on the config store: both
buffers are decoded from dual-unit, and the write happens only when the
decoded key is non-empty. -/
def setOption (writes : List (List Nat × List Nat)) (key value : List Nat) :
    List (List Nat × List Nat) :=
  let utf8Key := utf16ToUTF8str (takeUntilNul key)
  let utf8Value := utf16ToUTF8str (takeUntilNul value)
  if utf8Key ≠ [] then writes ++ [(utf8Key, utf8Value)] else writes

/-- One iteration of the `PERSIST_OPT` loop of `KeymanEngine::keyEvent`
(`engine.cpp` lines 535-544): `setOption` is invoked only when both the key
and the value pointers are non-null. -/
def persistStep (writes : List (List Nat × List Nat)) (item : OptItem) :
    List (List Nat × List Nat) :=
  match item.key, item.value with
  | some k, some v => setOption writes k v
  | _, _ => writes

/-- The whole `PERSIST_OPT` loop: iterate over the array entries up to (not
including) the first entry with scope 0, accumulating store writes. -/
def persistOptionsWrites (opts : List OptItem) : List (List Nat × List Nat) :=
  (opts.takeWhile (fun o => o.scope != 0)).foldl persistStep []

theorem persistStep_mem (acc : List (List Nat × List Nat)) (o : OptItem)
    (w : List Nat × List Nat) (hw : w ∈ persistStep acc o) :
    w ∈ acc ∨
      (∃ k v, o.key = some k ∧ o.value = some v ∧
        w.1 = utf16ToUTF8str (takeUntilNul k) ∧
        w.2 = utf16ToUTF8str (takeUntilNul v) ∧ w.1 ≠ []) := by
  unfold persistStep at hw
  rcases o with ⟨s, k, v⟩
  rcases k with _ | k <;> rcases v with _ | v <;> simp at hw <;>
    try (left; exact hw)
  unfold setOption at hw
  by_cases hk : utf16ToUTF8str (takeUntilNul k) ≠ []
  · rw [if_pos hk] at hw
    rcases List.mem_append.mp hw with hin | hnew
    · left; exact hin
    · right
      have hw2 : w = (utf16ToUTF8str (takeUntilNul k),
          utf16ToUTF8str (takeUntilNul v)) := by simpa using hnew
      exact ⟨k, v, rfl, rfl, by rw [hw2], by rw [hw2], by rw [hw2]; exact hk⟩
  · rw [if_neg hk] at hw
    left; exact hw

theorem persistFold_mem (items : List OptItem)
    (acc : List (List Nat × List Nat)) (w : List Nat × List Nat)
    (hw : w ∈ items.foldl persistStep acc) :
    w ∈ acc ∨
      (∃ o ∈ items, ∃ k v, o.key = some k ∧ o.value = some v ∧
        w.1 = utf16ToUTF8str (takeUntilNul k) ∧
        w.2 = utf16ToUTF8str (takeUntilNul v) ∧ w.1 ≠ []) := by
  induction items generalizing acc with
  | nil => left; exact hw
  | cons o items ih =>
    rw [List.foldl_cons] at hw
    rcases ih (persistStep acc o) hw with hin | ⟨o2, ho2, rest⟩
    · rcases persistStep_mem acc o w hin with hacc | hnew
      · left; exact hacc
      · right; exact ⟨o, List.mem_cons_self o items, hnew⟩
    · right; exact ⟨o2, List.mem_cons_of_mem o ho2, rest⟩

/-- **C8.** A triple is written to the keyboard's option store only when
both its key and value pointers are non-null and the key decodes to a
non-empty string; the concrete options list holding one triple with key
"x"/value "y" and one triple with a null key (then the scope-0 terminator)
produces exactly one store write, for key "x". -/
theorem C8_option_persistence :
    (∀ opts w, w ∈ persistOptionsWrites opts →
      ∃ o ∈ opts.takeWhile (fun o => o.scope != 0),
        ∃ k v, o.key = some k ∧ o.value = some v ∧
          w.1 = utf16ToUTF8str (takeUntilNul k) ∧
          w.2 = utf16ToUTF8str (takeUntilNul v) ∧ w.1 ≠ []) ∧
    persistOptionsWrites
        [{ scope := 1, key := some [120, 0], value := some [121, 0] },
         { scope := 1, key := none, value := some [121, 0] },
         { scope := 0, key := none, value := none }] = [([120], [121])] := by
  constructor
  · intro opts w hw
    unfold persistOptionsWrites at hw
    rcases persistFold_mem _ [] w hw with hin | hfound
    · simp at hin
    · exact hfound
  · decide

/-- Witness for C8: the only write produced by the concrete scenario indeed
comes from a non-null triple with a non-empty decoded key. -/
theorem C8_option_persistence_witness :
    ∃ o ∈ List.takeWhile (fun o => o.scope != 0)
        [{ scope := 1, key := some [120, 0], value := some [121, 0] },
         { scope := 1, key := none, value := some [121, 0] },
         ({ scope := 0, key := none, value := none } : OptItem)],
      ∃ k v, o.key = some k ∧ o.value = some v ∧
        ([120] : List Nat) = utf16ToUTF8str (takeUntilNul k) ∧
        ([121] : List Nat) = utf16ToUTF8str (takeUntilNul v) ∧
        ([120] : List Nat) ≠ [] :=
  C8_option_persistence.1
    [{ scope := 1, key := some [120, 0], value := some [121, 0] },
     { scope := 1, key := none, value := some [121, 0] },
     { scope := 0, key := none, value := none }]
    ([120], [121]) (by rw [C8_option_persistence.2]; exact List.mem_singleton.mpr rfl)

/-- `std::string operator<` on version fields: lexicographic comparison of
the underlying character sequences (`std::lexicographical_compare`). -/
def versionLt : List Nat → List Nat → Bool
  | _, [] => false
  | [], _ :: _ => true
  | a :: as, b :: bs =>
    if a < b then true
    else if b < a then false
    else versionLt as bs

/-- The per-record body of the catalog rebuild loop in
`KeymanEngine::listInputMethods` (`engine.cpp` lines 271-280): if a record
with the same identifier is already in the map and the stored version
compares less than the incoming one, the incoming record is skipped
(`continue`); otherwise the incoming record overwrites (or inserts) the map
entry.  The `unordered_map` is modelled as an association list keyed by
identifier. -/
def catalogInsert (m : List (List Nat × List Nat)) (id ver : List Nat) :
    List (List Nat × List Nat) :=
  match m.find? (fun e => e.1 == id) with
  | some stored =>
    if versionLt stored.2 ver then m
    else m.map (fun e => if e.1 == id then (id, ver) else e)
  | none => m ++ [(id, ver)]

/-- The catalog rebuild over a sequence of (identifier, version) records,
starting from the empty map. -/
def rebuildCatalog (records : List (List Nat × List Nat)) :
    List (List Nat × List Nat) :=
  records.foldl (fun m r => catalogInsert m r.1 r.2) []

/-- **C9 (code evaluation at the failing input).** Processing two records
with the same identifier `[102]` ("f") and versions `[49]` ("1") and `[50]`
("2") — in either order — retains version `[49]`, the lexicographically
*smaller* one, even though `versionLt [49] [50] = true`: the rebuild keeps
the older record, contradicting the claim that the record whose version
compares greater is retained. -/
theorem C9_catalog_keeps_older :
    rebuildCatalog [([102], [49]), ([102], [50])] = [([102], [49])] ∧
    rebuildCatalog [([102], [50]), ([102], [49])] = [([102], [49])] ∧
    versionLt [49] [50] = true := by
  refine ⟨?_, ?_, ?_⟩ <;> decide

end FcitxKeyman
